import Mathlib

/-!
Shallow embedding of the placeholder-extraction and document-refill engine of
the repository (src/src/services/documentParser.ts, documentDownload.ts,
apiService.ts, and the preview component's highlight function), together with
theorems settling the spec claims.

Modelling conventions:
- JavaScript strings are modelled as `List Char` (one entry per UTF-16 code
  unit for the inputs considered, all of which are in the BMP).
- Optional string fields (`value?: string`) are modelled as `List Char` with
  `[]` standing for both `undefined` and `""`: every use in the sources
  (`if (placeholder.value)`, `!placeholder.value?.trim()`,
  `!p.value || p.value.trim() === ''`) treats the two identically.
- `String.prototype.replace(regex, replacement)` with a global regex whose
  pattern is a regex-escaped literal is modelled by `jsReplaceStr`, including
  the `GetSubstitution` handling of `$$`, `$&`, dollar-backquote,
  dollar-apostrophe and `$n` escapes in the replacement string.
- `a.label.localeCompare(b.label)` driving `Array.prototype.sort` (a stable
  comparator sort per ES2019) is a host/locale collation; the comparator is
  abstracted (`extractPlaceholdersWith`) wherever the ordering itself is at
  issue, and `extractPlaceholders` fixes one admissible instantiation
  (code-point lexicographic `lexLe`) for the concrete-output claims, whose
  facts (counts, membership, filters, up-to-id agreement) do not depend on
  the comparator choice.
- `new Date(s)` parsing is host-defined; both services' `isValidDate` are the
  same host call, modelled as a single abstract parameter `dateOk`.
- `isNaN(Number(s))` is modelled concretely by the ECMAScript
  `StringNumericLiteral` grammar (`numberOk`).
- `Char.toLower`/`Char.toUpper` model `toLowerCase`/`toUpperCase`; they agree
  on the ASCII tokens that appear in documents and claims.
-/

/-- Code points matched by ECMAScript `\s` and removed by `String.trim`
(WhiteSpace plus LineTerminator). -/
def jsSpaceCodes : List UInt32 :=
  [9, 10, 11, 12, 13, 32, 160, 5760,
   8192, 8193, 8194, 8195, 8196, 8197, 8198, 8199, 8200, 8201, 8202,
   8232, 8233, 8239, 8287, 12288, 65279]

/-- Whether a character is ECMAScript whitespace. -/
def jsSpace (c : Char) : Bool :=
  jsSpaceCodes.contains c.val

/-- Model of `String.prototype.trim`. -/
def jsTrim (s : List Char) : List Char :=
  ((s.dropWhile jsSpace).reverse.dropWhile jsSpace).reverse

/-- Split a list on every occurrence of a separator character, keeping empty
segments, as `String.prototype.split(sep)` does. -/
def splitOnChar (sep : Char) : List Char → List (List Char)
  | [] => [[]]
  | c :: rest =>
    match splitOnChar sep rest with
    | [] => [[c]]
    | g :: gs => if c = sep then [] :: g :: gs else (c :: g) :: gs

/-- Join segments with a separator character, as `Array.prototype.join`. -/
def joinSep (sep : Char) (gs : List (List Char)) : List Char :=
  List.intercalate [sep] gs

/-- Concatenation of per-element contributions. -/
def concatMap (f : α → List β) : List α → List β
  | [] => []
  | a :: as => f a ++ concatMap f as

/-- Code-point lexicographic comparison of char lists: one admissible
instantiation of the host collation behind `localeCompare`, fixed so that the
concrete-output claims evaluate; it is not the host collation itself (default
Unicode collations order punctuation before letters, code-point order does
not), so claims about the output ordering abstract the comparator instead. -/
def lexLe : List Char → List Char → Bool
  | [], _ => true
  | _ :: _, [] => false
  | a :: as, b :: bs => if a < b then true else if b < a then false else lexLe as bs

/-! Model of `String.prototype.replace` with a global literal-pattern regex

The sources always build the regex as `new RegExp(escaped, "g")` where
`escaped` escapes every regex metacharacter of a source substring, so the
compiled regex matches exactly that literal substring.  Replacement therefore
proceeds by repeatedly finding the leftmost occurrence of the literal pattern
and substituting the replacement template, in which ECMAScript
`GetSubstitution` interprets dollar escapes. -/

/-- Split `s` at the first occurrence of `pat`: `some (b, a)` with
`s = b ++ pat ++ a` and `pat` not occurring earlier. -/
def splitFirst (pat : List Char) : List Char → Option (List Char × List Char)
  | [] => if pat.isEmpty then some ([], []) else none
  | c :: cs =>
    if pat.isPrefixOf (c :: cs) then some ([], (c :: cs).drop pat.length)
    else
      match splitFirst pat cs with
      | some (b, a) => some (c :: b, a)
      | none => none

/-- Fuel-driven worker for `substTemplate`; each step consumes at least one
template character, so fuel `tpl.length + 1` is never exhausted. -/
def substTemplateF (groups : List (List Char)) (matched pre post : List Char) :
    Nat → List Char → List Char
  | 0, _ => []
  | Nat.succ _, [] => []
  | Nat.succ fuel, c :: rest =>
    if c = '$' then
      match rest with
      | [] => ['$']
      | c2 :: rest2 =>
        if c2 = '$' then '$' :: substTemplateF groups matched pre post fuel rest2
        else if c2 = '&' then
          matched ++ substTemplateF groups matched pre post fuel rest2
        else if c2 = Char.ofNat 96 then
          pre ++ substTemplateF groups matched pre post fuel rest2
        else if c2 = Char.ofNat 39 then
          post ++ substTemplateF groups matched pre post fuel rest2
        else if c2.isDigit then
          match rest2 with
          | c3 :: rest3 =>
            if c3.isDigit ∧ 1 ≤ (c2.toNat - 48) * 10 + (c3.toNat - 48) ∧
                (c2.toNat - 48) * 10 + (c3.toNat - 48) ≤ groups.length then
              groups.getD ((c2.toNat - 48) * 10 + (c3.toNat - 48) - 1) [] ++
                substTemplateF groups matched pre post fuel rest3
            else if 1 ≤ c2.toNat - 48 ∧ c2.toNat - 48 ≤ groups.length then
              groups.getD (c2.toNat - 48 - 1) [] ++
                substTemplateF groups matched pre post fuel rest2
            else '$' :: c2 :: substTemplateF groups matched pre post fuel rest2
          | [] =>
            if 1 ≤ c2.toNat - 48 ∧ c2.toNat - 48 ≤ groups.length then
              groups.getD (c2.toNat - 48 - 1) []
            else ['$', c2]
        else '$' :: c2 :: substTemplateF groups matched pre post fuel rest2
    else c :: substTemplateF groups matched pre post fuel rest

/-- ECMAScript `GetSubstitution` applied to a replacement template, for a
match with capture list `groups`, matched text `matched`, text before the
match `pre` and text after the match `post`. -/
def substTemplate (groups : List (List Char)) (matched pre post tpl : List Char) :
    List Char :=
  substTemplateF groups matched pre post (tpl.length + 1) tpl

/-- Core loop of global literal-pattern replacement.  `mk` builds the
replacement text from the matched text, the text preceding the match in the
whole subject, and the text following it; `pre` accumulates the consumed
prefix of the subject.  The fuel argument is `subject.length + 1` at the top
level, which the loop can never exhaust since every step consumes at least
one character of `rem`. -/
def jsReplaceCore (mk : List Char → List Char → List Char → List Char)
    (pat : List Char) : Nat → List Char → List Char → List Char
  | 0, _, rem => rem
  | Nat.succ fuel, pre, rem =>
    if pat.isEmpty then
      match rem with
      | [] => mk [] pre []
      | c :: cs => mk [] pre rem ++ c :: jsReplaceCore mk pat fuel (pre ++ [c]) cs
    else
      match splitFirst pat rem with
      | none => rem
      | some (b, a) =>
        b ++ mk pat (pre ++ b) a ++ jsReplaceCore mk pat fuel (pre ++ b ++ pat) a

/-- Global replacement of the literal pattern `pat` in `s`, building each
replacement with `mk`. -/
def jsReplaceStr (mk : List Char → List Char → List Char → List Char)
    (pat s : List Char) : List Char :=
  jsReplaceCore mk pat (s.length + 1) [] s

/-! Data model (documentParser.ts) -/

/-- The `type` union of the `Placeholder` interface. -/
inductive PType where
  | text
  | date
  | number
  | email
deriving DecidableEq

/-- The `Placeholder` interface, without the `id` field.  The `id` is produced
by the impure `generateId` (timestamp and random suffix) and is never read by
any engine function; claims about ids are handled by `PlaceholderI` below. -/
structure Placeholder where
  label : List Char
  originalText : List Char
  value : List Char := []
  type : PType
  required : Bool
  description : List Char
deriving DecidableEq

instance : Inhabited Placeholder :=
  ⟨{ label := [], originalText := [], value := [], type := PType.text,
     required := false, description := [] }⟩

/-- A `Placeholder` together with its `id`, for the statelessness claim. -/
structure PlaceholderI where
  id : List Char
  data : Placeholder
deriving DecidableEq

/-- Result record `{ isValid, errors }` shared by all validation functions. -/
structure ValidationResult where
  isValid : Bool
  errors : List (List Char)
deriving DecidableEq

/-- Model of `String.prototype.includes`: whether `needle` occurs as a
contiguous substring of `hay`. -/
def containsSub (needle hay : List Char) : Bool :=
  (splitFirst needle hay).isSome

/-! Placeholder extraction (documentParser.ts, extractPlaceholders)

Each of the four regex grammars is deterministic on any subject: the inner
character classes exclude the closing delimiter, so the greedy quantifier has
a unique viable extent and no backtracking can produce a different match.
Each `tryMatch` attempts a match anchored at the start of the given suffix and
returns `(matchedText, innerToken, remainingSuffix)`.  `scanAux` replays the
`regex.exec` loop with the `g` flag: scan left to right, resume after each
match.  Its fuel equals the subject length, which is adequate because every
match consumes at least one character. -/

/-- Grammar 1, regex `\{\{([^}]+)\}\}`. -/
def tryMatch1 : List Char → Option (List Char × List Char × List Char)
  | '{' :: '{' :: rest =>
    let run := rest.takeWhile (fun c => !(c == '}'))
    if run.isEmpty then none
    else
      match rest.dropWhile (fun c => !(c == '}')) with
      | '}' :: '}' :: rest2 =>
        some ('{' :: '{' :: (run ++ ['}', '}']), run, rest2)
      | _ => none
  | _ => none

/-- Character class `[A-Z_\s]` of grammar 2. -/
def bracketClass (c : Char) : Bool :=
  (('A' ≤ c && c ≤ 'Z') : Bool) || c == '_' || jsSpace c

/-- Grammar 2, regex `\[([A-Z_\s]+)\]`. -/
def tryMatch2 : List Char → Option (List Char × List Char × List Char)
  | '[' :: rest =>
    let run := rest.takeWhile bracketClass
    if run.isEmpty then none
    else
      match rest.dropWhile bracketClass with
      | ']' :: rest2 => some ('[' :: (run ++ [']']), run, rest2)
      | _ => none
  | _ => none

/-- Grammar 3, regex `<<([^>]+)>>`. -/
def tryMatch3 : List Char → Option (List Char × List Char × List Char)
  | '<' :: '<' :: rest =>
    let run := rest.takeWhile (fun c => !(c == '>'))
    if run.isEmpty then none
    else
      match rest.dropWhile (fun c => !(c == '>')) with
      | '>' :: '>' :: rest2 =>
        some ('<' :: '<' :: (run ++ ['>', '>']), run, rest2)
      | _ => none
  | _ => none

/-- Grammar 4, regex `\{([^}]+)\}`. -/
def tryMatch4 : List Char → Option (List Char × List Char × List Char)
  | '{' :: rest =>
    let run := rest.takeWhile (fun c => !(c == '}'))
    if run.isEmpty then none
    else
      match rest.dropWhile (fun c => !(c == '}')) with
      | '}' :: rest2 => some ('{' :: (run ++ ['}']), run, rest2)
      | _ => none
  | _ => none

/-- The `while ((match = pattern.exec(content)) !== null)` loop: collect
`(match[0], match[1])` pairs left to right, resuming after each match. -/
def scanAux (tm : List Char → Option (List Char × List Char × List Char)) :
    Nat → List Char → List (List Char × List Char)
  | 0, _ => []
  | Nat.succ _, [] => []
  | Nat.succ fuel, c :: cs =>
    match tm (c :: cs) with
    | some (m, inner, rest) => (m, inner) :: scanAux tm fuel rest
    | none => scanAux tm fuel cs

/-- All matches of one grammar over a subject. -/
def scanPattern (tm : List Char → Option (List Char × List Char × List Char))
    (s : List Char) : List (List Char × List Char) :=
  scanAux tm s.length s

/-- All matches of the four grammars, in the fixed priority order of the
`placeholderPatterns` array. -/
def allMatches (content : List Char) : List (List Char × List Char) :=
  scanPattern tryMatch1 content ++ scanPattern tryMatch2 content ++
    scanPattern tryMatch3 content ++ scanPattern tryMatch4 content

/-! Placeholder creation (documentParser.ts, createPlaceholder) -/

/-- Capitalization of one word in `formatLabel`:
`word.charAt(0).toUpperCase() + word.slice(1).toLowerCase()`. -/
def capWord : List Char → List Char
  | [] => []
  | c :: rest => Char.toUpper c :: rest.map Char.toLower

/-- The `formatLabel` method. -/
def formatLabel (t : List Char) : List Char :=
  joinSep ' ' ((splitOnChar ' ' t).map capWord)

/-- The `text.replace(/[_-]/g, " ").trim()` normalization. -/
def cleanTextOf (text : List Char) : List Char :=
  jsTrim (text.map (fun c => if c = '_' ∨ c = '-' then ' ' else c))

/-- The `createPlaceholder` method (without the impure `generateId`). -/
def createPlaceholder (text originalText : List Char) : Placeholder :=
  let cleanText := cleanTextOf text
  let lowerText := cleanText.map Char.toLower
  let td : PType × List Char :=
    if containsSub ((("date").toList : List Char)) lowerText ∨ containsSub ((("time").toList : List Char)) lowerText then
      (PType.date, ("Enter a date").toList)
    else if containsSub ((("email").toList : List Char)) lowerText ∨
        containsSub ((("e-mail").toList : List Char)) lowerText then
      (PType.email, ("Enter an email address").toList)
    else if containsSub ((("number").toList : List Char)) lowerText ∨
        containsSub ((("amount").toList : List Char)) lowerText ∨
        containsSub ((("price").toList : List Char)) lowerText ∨
        containsSub ((("cost").toList : List Char)) lowerText then
      (PType.number, ("Enter a number").toList)
    else (PType.text, ("Enter text").toList)
  let required :=
    !(containsSub ((("optional").toList : List Char)) lowerText) &&
      !(containsSub ((("if applicable").toList : List Char)) lowerText)
  { label := formatLabel cleanText
    originalText := originalText
    value := []
    type := td.1
    required := required
    description := td.2 }

/-- The dedup-and-create fold over the match stream: skip a match whose
trimmed, lowercased inner token was already seen, otherwise record its key and
create its placeholder.  Returns `(dedupKey, placeholder)` pairs in creation
order. -/
def dedupKeyed (seen : List (List Char)) :
    List (List Char × List Char) → List (List Char × Placeholder)
  | [] => []
  | (orig, inner) :: ms =>
    let ptext := jsTrim inner
    let key := ptext.map Char.toLower
    if key ∈ seen then dedupKeyed seen ms
    else (key, createPlaceholder ptext orig) :: dedupKeyed (key :: seen) ms

/-- Placeholders in creation (detection) order, before sorting. -/
def detectPlaceholders (content : List Char) : List Placeholder :=
  (dedupKeyed [] (allMatches content)).map Prod.snd

/-- The comparator `(a, b) => a.label.localeCompare(b.label)` under the fixed
code-point lexicographic instantiation `lexLe` of the host collation (see
`extractPlaceholdersWith` for the comparator-abstracted form). -/
def labelLe (a b : Placeholder) : Prop :=
  lexLe a.label b.label = true

instance : DecidableRel labelLe := fun a b =>
  inferInstanceAs (Decidable (lexLe a.label b.label = true))

instance : IsTotal Placeholder labelLe :=
  ⟨fun p q => by
    unfold labelLe
    generalize p.label = a
    generalize q.label = b
    induction a generalizing b with
    | nil => left; rfl
    | cons c as ih =>
      cases b with
      | nil => right; rfl
      | cons d bs =>
        rcases lt_trichotomy c d with h | h | h
        · left; simp [lexLe, h]
        · subst h
          rcases ih bs with h2 | h2
          · left; simp [lexLe, lt_irrefl, h2]
          · right; simp [lexLe, lt_irrefl, h2]
        · right; simp [lexLe, h]⟩

instance : IsTrans Placeholder labelLe :=
  ⟨fun p q w hab hbc => by
    unfold labelLe at hab hbc ⊢
    revert hab hbc
    generalize p.label = a
    generalize q.label = b
    generalize w.label = c
    intro hab hbc
    induction a generalizing b c with
    | nil => rfl
    | cons x as ih =>
      cases b with
      | nil => simp [lexLe] at hab
      | cons y bs =>
        cases c with
        | nil => simp [lexLe] at hbc
        | cons z cs =>
          simp only [lexLe] at hab hbc ⊢
          rcases lt_trichotomy x y with hxy | rfl | hxy
          · rcases lt_trichotomy y z with hyz | rfl | hyz
            · rw [if_pos (lt_trans hxy hyz)]
            · rw [if_pos hxy]
            · rw [if_neg (lt_asymm hyz), if_pos hyz] at hbc
              simp at hbc
          · rw [if_neg (lt_irrefl x), if_neg (lt_irrefl x)] at hab
            rcases lt_trichotomy x z with hxz | rfl | hxz
            · rw [if_pos hxz]
            · rw [if_neg (lt_irrefl x), if_neg (lt_irrefl x)] at hbc ⊢
              exact ih bs cs hab hbc
            · rw [if_neg (lt_asymm hxz), if_pos hxz] at hbc
              simp at hbc
          · rw [if_neg (lt_asymm hxy), if_pos hxy] at hab
            simp at hab⟩

/-- The `extractPlaceholders` method: scan all grammars in priority order,
dedup case-insensitively on the inner token, create placeholders, and sort by
label (`Array.prototype.sort` is a stable comparator sort; stable insertion
sort realizes it), under the fixed `lexLe` instantiation of the host
collation. -/
def extractPlaceholders (content : List Char) : List Placeholder :=
  List.insertionSort labelLe (detectPlaceholders content)

/-- The `extractPlaceholders` method with the sort comparator abstracted: the
host's `localeCompare` collation is implementation- and locale-defined, so
the ordering of the output is determined only relative to a comparator
parameter `le` (compare the abstract `dateOk` for `new Date`). -/
def extractPlaceholdersWith (le : List Char → List Char → Bool)
    (content : List Char) : List Placeholder :=
  List.insertionSort (fun p q => le p.label q.label = true)
    (detectPlaceholders content)

/-- Lexicographic comparison of char lists where characters are ordered by an
arbitrary collation key. -/
def keyedLexLe (key : Char → Nat) : List Char → List Char → Bool
  | [], _ => true
  | _ :: _, [] => false
  | a :: as, b :: bs =>
    if key a < key b then true
    else if key b < key a then false
    else keyedLexLe key as bs

/-- A collation key with the characteristic property of default Unicode
collations (ICU root, as browsers ship for `localeCompare`) that
non-alphanumeric characters order before alphanumeric ones; within a class,
code-point order.  `2097152 = 2^21` exceeds every code point. -/
def icuKey (c : Char) : Nat :=
  (if c.isAlpha || c.isDigit then 2097152 else 0) + c.toNat

/-- A total, transitive comparator with the punctuation-before-letters
property of default `localeCompare` collations; it orders the producible
label `\x7bx` before the label `X`, the reverse of code-point order. -/
def icuLikeLe : List Char → List Char → Bool := keyedLexLe icuKey

/-! Id-carrying extraction, for the statelessness claim.  The source's
`generateId` draws on `Date.now()` and `Math.random()`; it is modelled by an
arbitrary sequence `gen : Nat → List Char` of generated ids, consumed in
creation order. -/

/-- The dedup-and-create fold, additionally attaching `gen n` as the id of the
`n`-th created placeholder. -/
def dedupKeyedI (gen : Nat → List Char) (n : Nat) (seen : List (List Char)) :
    List (List Char × List Char) → List (List Char × PlaceholderI)
  | [] => []
  | (orig, inner) :: ms =>
    let ptext := jsTrim inner
    let key := ptext.map Char.toLower
    if key ∈ seen then dedupKeyedI gen n seen ms
    else
      (key, ⟨gen n, createPlaceholder ptext orig⟩) ::
        dedupKeyedI gen (n + 1) (key :: seen) ms

/-- Comparator of the id-carrying sort: ids are not consulted. -/
def labelLeI (a b : PlaceholderI) : Prop :=
  lexLe a.data.label b.data.label = true

instance : DecidableRel labelLeI := fun a b =>
  inferInstanceAs (Decidable (lexLe a.data.label b.data.label = true))

/-- The `extractPlaceholders` method with ids attached from the generator
sequence `gen`. -/
def extractPlaceholdersI (gen : Nat → List Char) (content : List Char) :
    List PlaceholderI :=
  List.insertionSort labelLeI
    ((dedupKeyedI gen 0 [] (allMatches content)).map Prod.snd)

/-! Filling (documentParser.ts, fillPlaceholders) -/

/-- The `fillPlaceholders` method: for each placeholder with a truthy value,
globally replace the regex-escaped `originalText` by the value, the value
being interpreted as a `String.replace` replacement pattern (no capture
groups). -/
def fillPlaceholders (content : List Char) (placeholders : List Placeholder) :
    List Char :=
  placeholders.foldl
    (fun acc p =>
      if p.value.isEmpty then acc
      else
        jsReplaceStr (fun m pre post => substTemplate [] m pre post p.value)
          p.originalText acc)
    content

/-! Validation (documentParser.ts, validatePlaceholders) -/

/-- The regex `^[^\s@]+@[^\s@]+\.[^\s@]+$` of `isValidEmail`.  A string
matches iff it splits as `A ++ "@" ++ B ++ "." ++ C` with `A`, `B`, `C`
nonempty and free of whitespace and `@`; equivalently: no whitespace
anywhere, exactly one `@`, a nonempty part before it, and a `.` at some
position of the part after it other than its first and last character. -/
def isValidEmail (s : List Char) : Bool :=
  let afterAt := (s.dropWhile (fun c => !(c == '@'))).drop 1
  !(s.any jsSpace) && s.count '@' == 1 &&
    !((s.takeWhile (fun c => !(c == '@'))).isEmpty) &&
    ((afterAt.drop 1).dropLast.contains '.')

/-- Decimal digits. -/
def isDigitB (c : Char) : Bool := c.isDigit

/-- Exponent part `(e|E)[+-]?[0-9]+` of the string numeric grammar, or
nothing. -/
def expOk : List Char → Bool
  | [] => true
  | e :: r =>
    (e == 'e' || e == 'E') &&
      (let r2 := match r with
        | c :: rr => if c = '+' ∨ c = '-' then rr else c :: rr
        | [] => []
      !r2.isEmpty && r2.all isDigitB)

/-- Unsigned `StrDecimalLiteral`: `Infinity`, `digits [. digits] [exp]`, or
`. digits [exp]`. -/
def unsignedDecOk (t : List Char) : Bool :=
  if t = ("Infinity").toList then true
  else
    let ds := t.takeWhile isDigitB
    let rest := t.dropWhile isDigitB
    if ds.isEmpty then
      match rest with
      | '.' :: r =>
        !(r.takeWhile isDigitB).isEmpty && expOk (r.dropWhile isDigitB)
      | _ => false
    else
      match rest with
      | [] => true
      | '.' :: r => expOk (r.dropWhile isDigitB)
      | _ => expOk rest

/-- Hexadecimal digits. -/
def isHexB (c : Char) : Bool :=
  c.isDigit || (('a' ≤ c && c ≤ 'f') : Bool) || (('A' ≤ c && c ≤ 'F') : Bool)

/-- `NonDecimalIntegerLiteral`: `0x`, `0o` or `0b` with at least one digit of
the base. -/
def nonDecOk : List Char → Bool
  | '0' :: b :: r =>
    if b = 'x' ∨ b = 'X' then !r.isEmpty && r.all isHexB
    else if b = 'o' ∨ b = 'O' then
      !r.isEmpty && r.all (fun c => (('0' ≤ c && c ≤ '7') : Bool))
    else if b = 'b' ∨ b = 'B' then
      !r.isEmpty && r.all (fun c => c == '0' || c == '1')
    else false
  | _ => false

/-- Model of `!isNaN(Number(s))`: the ECMAScript `StringNumericLiteral`
grammar — optional whitespace, then empty (value 0), a signed decimal
literal, or an unsigned non-decimal integer literal. -/
def numberOk (s : List Char) : Bool :=
  let t := jsTrim s
  if t.isEmpty then true
  else
    nonDecOk t ||
      (match t with
        | c :: r => if c = '+' ∨ c = '-' then unsignedDecOk r else unsignedDecOk (c :: r)
        | [] => false)

/-- Error contributions of the `switch (placeholder.type)` when the type
check runs on `p.value`. -/
def typeErrors (dateOk : List Char → Bool) (p : Placeholder) : List (List Char) :=
  match p.type with
  | PType.email =>
    if isValidEmail p.value then [] else [p.label ++ (" must be a valid email address").toList]
  | PType.number =>
    if numberOk p.value then [] else [p.label ++ (" must be a valid number").toList]
  | PType.date =>
    if dateOk p.value then [] else [p.label ++ (" must be a valid date").toList]
  | PType.text => []

/-- One iteration of the `placeholders.forEach` body of
`validatePlaceholders`: a required placeholder with blank (empty or
whitespace-only) value pushes the completeness error and returns early;
otherwise a placeholder with truthy value runs the type check. -/
def vpStep (dateOk : List Char → Bool) (errs : List (List Char)) (p : Placeholder) :
    List (List Char) :=
  if p.required && (jsTrim p.value).isEmpty then
    errs ++ [p.label ++ (" is required").toList]
  else if !p.value.isEmpty then errs ++ typeErrors dateOk p
  else errs

/-- The `validatePlaceholders` method, parameterized by the host date parser
used by `isValidDate` (`new Date(s)` acceptance is implementation-defined). -/
def validatePlaceholders (dateOk : List Char → Bool) (placeholders : List Placeholder) :
    ValidationResult :=
  let errors := placeholders.foldl (vpStep dateOk) []
  { isValid := errors.length == 0, errors := errors }

/-! Document rendering (documentDownload.ts) -/

/-- The docx heading levels used by the renderer. -/
inductive HLevel where
  | h1
  | h2
  | h3
deriving DecidableEq

/-- Uppercase ASCII letter, class `[A-Z]`. -/
def upperAZ (c : Char) : Bool := (('A' ≤ c && c ≤ 'Z') : Bool)

/-- Lowercase ASCII letter, class `[a-z]`. -/
def lowerAZ (c : Char) : Bool := (('a' ≤ c && c ≤ 'z') : Bool)

/-- ECMAScript LineTerminator, which `.` does not match. -/
def lineTerm (c : Char) : Bool :=
  c.val == 10 || c.val == 13 || c.val == 8232 || c.val == 8233

/-- Regex `^[A-Z][A-Z\s]+$`. -/
def allCapsPat : List Char → Bool
  | [] => false
  | c :: rest =>
    upperAZ c && !rest.isEmpty && rest.all (fun d => upperAZ d || jsSpace d)

/-- Regex `^\d+\.\s`. -/
def numberedPat (l : List Char) : Bool :=
  !(l.takeWhile isDigitB).isEmpty &&
    (match l.dropWhile isDigitB with
      | '.' :: c :: _ => jsSpace c
      | _ => false)

/-- Regex `^[A-Z][a-z]+:$`. -/
def titleColonPat : List Char → Bool
  | [] => false
  | c :: rest =>
    upperAZ c && rest.length ≥ 2 && rest.getLast? == some ':' &&
      rest.dropLast.all lowerAZ

/-- Regex `^[A-Z].*[^.]$` (`.` does not cross line terminators). -/
def capNoPeriodPat : List Char → Bool
  | [] => false
  | c :: rest =>
    upperAZ c && !rest.isEmpty && !(rest.getLast? == some '.') &&
      rest.dropLast.all (fun d => !lineTerm d)

/-- The `isHeading` method: one of the four patterns matches the trimmed line,
and the line is shorter than 100 characters. -/
def isHeading (line : List Char) : Bool :=
  (allCapsPat (jsTrim line) || numberedPat (jsTrim line) ||
      titleColonPat (jsTrim line) || capNoPeriodPat (jsTrim line)) &&
    line.length < 100

/-- The `getHeadingLevel` method. -/
def getHeadingLevel (line : List Char) : HLevel :=
  if numberedPat line then HLevel.h2
  else if allCapsPat line then HLevel.h1
  else HLevel.h3

/-- The `getHeadingSize` method; sizes are docx half-points (32 = 16pt,
28 = 14pt, 26 = 13pt). -/
def getHeadingSize : HLevel → Nat
  | HLevel.h1 => 32
  | HLevel.h2 => 28
  | HLevel.h3 => 26

/-- One rendered paragraph: its single `TextRun`'s text, bold flag and size
(half-points), and its heading level if any. -/
structure DocParagraph where
  text : List Char
  bold : Bool
  size : Nat
  heading : Option HLevel
deriving DecidableEq

/-- The `parseTextToParagraphs` method: split on newlines, drop blank lines,
classify each trimmed line as heading (bold, sized by level) or body
paragraph (12pt = 24 half-points). -/
def parseTextToParagraphs (text : List Char) : List DocParagraph :=
  let lines := (splitOnChar '\n' text).filter (fun l => !(jsTrim l).isEmpty)
  concatMap
    (fun line =>
      let trimmedLine := jsTrim line
      if trimmedLine.isEmpty then []
      else if isHeading trimmedLine then
        [{ text := trimmedLine
           bold := true
           size := getHeadingSize (getHeadingLevel trimmedLine)
           heading := some (getHeadingLevel trimmedLine) }]
      else [{ text := trimmedLine, bold := false, size := 24, heading := none }])
    lines

/-! Download validation (documentDownload.ts, validateForDownload) -/

/-- Error contributions of the type `switch` of `validateForDownload` (its
messages differ from `validatePlaceholders`). -/
def dTypeErrors (dateOk : List Char → Bool) (p : Placeholder) : List (List Char) :=
  match p.type with
  | PType.email =>
    if isValidEmail p.value then []
    else [p.label ++ (" contains an invalid email address").toList]
  | PType.number =>
    if numberOk p.value then [] else [p.label ++ (" contains an invalid number").toList]
  | PType.date =>
    if dateOk p.value then [] else [p.label ++ (" contains an invalid date").toList]
  | PType.text => []

/-- Decimal rendering of a Nat, for the aggregated message. -/
def natToChars (n : Nat) : List Char := (toString n).toList

/-- The `validateForDownload` method: one aggregated error listing all
unfilled required fields, then a type check for every placeholder whose value
is non-empty and does not trim to empty. -/
def validateForDownload (dateOk : List Char → Bool) (placeholders : List Placeholder) :
    ValidationResult :=
  let unfilledRequired :=
    (placeholders.filter (fun p => p.required)).filter
      (fun p => p.value.isEmpty || (jsTrim p.value).isEmpty)
  let errors :=
    (if unfilledRequired.length > 0 then
      [natToChars unfilledRequired.length ++
        (" required field(s) are still empty: ").toList ++
        List.intercalate ((", ").toList) (unfilledRequired.map Placeholder.label)]
    else []) ++
      concatMap
        (fun p =>
          if !p.value.isEmpty && !(jsTrim p.value).isEmpty then dTypeErrors dateOk p
          else [])
        placeholders
  { isValid := errors.length == 0, errors := errors }

/-! Upload validation (apiService.ts, validateDocumentUpload) -/

/-- The `File` fields consulted by `validateDocumentUpload`.  A Lean value
always exists, so the `if (!file)` null branch of the source is outside the
model (the claim quantifies over files, not over the absence of one). -/
structure UploadFile where
  name : List Char
  size : Nat
  type : List Char
deriving DecidableEq

/-- The `allowedTypes` array. -/
def allowedMimeTypes : List (List Char) :=
  [("application/vnd.openxmlformats-officedocument.wordprocessingml.document").toList,
   ("application/msword").toList]

/-- The `maxSize` constant, 10 MB. -/
def maxUploadSize : Nat := 10 * 1024 * 1024

/-- The `validateDocumentUpload` method. -/
def validateDocumentUpload (f : UploadFile) : ValidationResult :=
  let errors :=
    (if f.size > maxUploadSize then [("File size exceeds 10MB limit").toList] else []) ++
      (if f.type ∈ allowedMimeTypes then []
       else [("Only .docx and .doc files are supported").toList]) ++
      (if f.name.length > 255 then [("Filename is too long").toList] else [])
  { isValid := errors.length == 0, errors := errors }

/-! Highlight view (DocumentPreview component, highlightUnfilledPlaceholders) -/

/-- The replacement template
`<span class="unfilled-placeholder" title="Unfilled: LABEL">$1</span>`
built by the component for an unfilled placeholder. -/
def wrapTemplate (label : List Char) : List Char :=
  ("<span class=\"unfilled-placeholder\" title=\"Unfilled: ").toList ++ label ++
    ("\">$1</span>").toList

/-- The `highlightUnfilledPlaceholders` function: each placeholder whose value
is absent or trims to empty has every occurrence of its `originalText` wrapped
in the marker span (the regex has one capture group around the escaped
literal, so `$1` is the matched text). -/
def highlightUnfilledPlaceholders (content : List Char) (placeholders : List Placeholder) :
    List Char :=
  placeholders.foldl
    (fun acc p =>
      if p.value.isEmpty || (jsTrim p.value).isEmpty then
        jsReplaceStr (fun m pre post => substTemplate [m] m pre post (wrapTemplate p.label))
          p.originalText acc
      else acc)
    content

/-! Specification-side definitions used for comparison -/

/-- Global replacement of a literal pattern by a raw replacement string, with
no replacement-pattern interpretation. -/
def literalReplaceAll (s pat rep : List Char) : List Char :=
  jsReplaceStr (fun _ _ _ => rep) pat s

/-- The filling contract as the spec words it (§4.2): every placeholder whose
value is non-empty is substituted, at every literal occurrence of its
`originalText`, by the value itself. -/
def specFillPlaceholders (content : List Char) (placeholders : List Placeholder) :
    List Char :=
  placeholders.foldl
    (fun acc p =>
      if p.value.isEmpty then acc else literalReplaceAll acc p.originalText p.value)
    content

/-- Per-placeholder error contribution of `validatePlaceholders`: the
completeness error for a required placeholder with blank value, otherwise the
type errors for a non-empty value. -/
def vpUnit (dateOk : List Char → Bool) (p : Placeholder) : List (List Char) :=
  if p.required && (jsTrim p.value).isEmpty then [p.label ++ (" is required").toList]
  else if !p.value.isEmpty then typeErrors dateOk p
  else []

/-- The type-inference rule as the spec words it (§4.1), over the normalized
(underscores/dashes to spaces, trimmed, lowercased) token. -/
def specTypeOf (lowerText : List Char) : PType :=
  if containsSub ((("date").toList : List Char)) lowerText ∨
      containsSub ((("time").toList : List Char)) lowerText then PType.date
  else if containsSub ((("email").toList : List Char)) lowerText ∨
      containsSub ((("e-mail").toList : List Char)) lowerText then PType.email
  else if containsSub ((("number").toList : List Char)) lowerText ∨
      containsSub ((("amount").toList : List Char)) lowerText ∨
      containsSub ((("price").toList : List Char)) lowerText ∨
      containsSub ((("cost").toList : List Char)) lowerText then PType.number
  else PType.text

/-! Concrete example inputs used by the claim theorems -/

/-- The token `{{x}}`. -/
def tokX : List Char := ("\x7b\x7bx\x7d\x7d").toList

/-- The content `{{x}} and {{x}} again` of the duplicate-token example. -/
def contentDup : List Char :=
  ("\x7b\x7bx\x7d\x7d and \x7b\x7bx\x7d\x7d again").toList

/-- The placeholder created for token `x` with `originalText` `{{x}}`. -/
def phX : Placeholder :=
  { label := ("X").toList, originalText := tokX, value := [],
    type := PType.text, required := true, description := ("Enter text").toList }

/-- The artifact placeholder the single-brace grammar creates from the first
four characters `{{x}` of a `{{x}}` token, with inner token `{x`. -/
def phBraceX : Placeholder :=
  { label := ("\x7bx").toList, originalText := ("\x7b\x7bx\x7d").toList, value := [],
    type := PType.text, required := true, description := ("Enter text").toList }

/-- The content `Hello {{name}}, total {{amount}}` of the filling example. -/
def contentHello : List Char :=
  ("Hello \x7b\x7bname\x7d\x7d, total \x7b\x7bamount\x7d\x7d").toList

/-- Placeholder `name` with value `Alice`. -/
def phName : Placeholder :=
  { label := ("Name").toList, originalText := ("\x7b\x7bname\x7d\x7d").toList,
    value := ("Alice").toList, type := PType.text, required := true, description := [] }

/-- Placeholder `amount` with value `10`. -/
def phAmount : Placeholder :=
  { label := ("Amount").toList, originalText := ("\x7b\x7bamount\x7d\x7d").toList,
    value := ("10").toList, type := PType.number, required := true, description := [] }

/-- A placeholder whose value is the replacement-pattern escape `$$`. -/
def phDollar : Placeholder :=
  { label := ("X").toList, originalText := tokX, value := ("$").toList ++ ("$").toList,
    type := PType.text, required := true, description := [] }

/-- The `Client Name` placeholder expected from a `client_name` token with the
given `originalText`. -/
def phClientName (orig : List Char) : Placeholder :=
  { label := ("Client Name").toList, originalText := orig, value := [],
    type := PType.text, required := true, description := ("Enter text").toList }

/-- A required email placeholder with whitespace-only value. -/
def phWsEmail : Placeholder :=
  { label := ("E").toList, originalText := tokX, value := (" ").toList,
    type := PType.email, required := true, description := [] }

/-- A non-required email placeholder with whitespace-only value. -/
def phWsEmailOpt : Placeholder :=
  { label := ("E").toList, originalText := tokX, value := (" ").toList,
    type := PType.email, required := false, description := [] }

/-- A required email placeholder with value `not-an-email`. -/
def phBadEmail : Placeholder :=
  { label := ("E").toList, originalText := tokX, value := ("not-an-email").toList,
    type := PType.email, required := true, description := [] }

/-- A required email placeholder with value `a@b.co`. -/
def phGoodEmail : Placeholder :=
  { label := ("E").toList, originalText := tokX, value := ("a@b.co").toList,
    type := PType.email, required := true, description := [] }

/-- A date parser accepting nothing; instantiates the abstract host parser in
closed statements where no date-typed placeholder occurs. -/
def dOkF : List Char → Bool := fun _ => false

/-- The three-line render input of the heading-heuristic example. -/
def renderInput : List Char :=
  ("SECTION ONE\n1. Parties\nThis is a normal sentence.").toList

/-! Supporting lemmas -/

theorem substTemplateF_no_dollar (groups : List (List Char)) (matched pre post : List Char) :
    ∀ fuel tpl, ('$' : Char) ∉ tpl → tpl.length ≤ fuel →
      substTemplateF groups matched pre post fuel tpl = tpl := by
  intro fuel
  induction fuel with
  | zero =>
    intro tpl hd hl
    cases tpl with
    | nil => rfl
    | cons c rest => simp at hl
  | succ fuel ih =>
    intro tpl hd hl
    cases tpl with
    | nil => rfl
    | cons c rest =>
      have hc : ¬c = '$' := fun h => hd (h ▸ List.mem_cons_self c rest)
      have hrest : ('$' : Char) ∉ rest := fun h => hd (List.mem_cons_of_mem c h)
      simp only [substTemplateF, if_neg hc]
      rw [ih rest hrest (by simpa using Nat.le_of_succ_le_succ hl)]

theorem substTemplate_no_dollar (groups : List (List Char)) (matched pre post tpl : List Char)
    (hd : ('$' : Char) ∉ tpl) :
    substTemplate groups matched pre post tpl = tpl :=
  substTemplateF_no_dollar groups matched pre post (tpl.length + 1) tpl hd (Nat.le_succ _)

theorem concatMap_eq_nil_iff (f : α → List β) :
    ∀ l : List α, concatMap f l = [] ↔ ∀ a ∈ l, f a = [] := by
  intro l
  induction l with
  | nil => simp [concatMap]
  | cons a as ih => simp [concatMap, ih]

theorem vpStep_eq_append (dateOk : List Char → Bool) (errs : List (List Char))
    (p : Placeholder) : vpStep dateOk errs p = errs ++ vpUnit dateOk p := by
  unfold vpStep vpUnit
  split_ifs <;> simp

theorem foldl_vpStep (dateOk : List Char → Bool) :
    ∀ (ps : List Placeholder) (init : List (List Char)),
      ps.foldl (vpStep dateOk) init = init ++ concatMap (vpUnit dateOk) ps := by
  intro ps
  induction ps with
  | nil => intro init; simp [concatMap]
  | cons p ps ih =>
    intro init
    simp only [List.foldl_cons, vpStep_eq_append, concatMap, ih, List.append_assoc]

theorem validatePlaceholders_errors (dateOk : List Char → Bool) (ps : List Placeholder) :
    (validatePlaceholders dateOk ps).errors = concatMap (vpUnit dateOk) ps := by
  unfold validatePlaceholders
  simp [foldl_vpStep]

theorem validationResult_isValid_iff (dateOk : List Char → Bool) (ps : List Placeholder) :
    (validatePlaceholders dateOk ps).isValid = true ↔
      (validatePlaceholders dateOk ps).errors = [] := by
  unfold validatePlaceholders
  simp [List.length_eq_zero]

theorem dedupKeyed_keys_fresh :
    ∀ (ms : List (List Char × List Char)) (seen : List (List Char)),
      (((dedupKeyed seen ms).map Prod.fst).Nodup) ∧
        (∀ k ∈ (dedupKeyed seen ms).map Prod.fst, k ∉ seen) := by
  intro ms
  induction ms with
  | nil => intro seen; simp [dedupKeyed]
  | cons m ms ih =>
    intro seen
    obtain ⟨orig, inner⟩ := m
    simp only [dedupKeyed]
    by_cases hk : (jsTrim inner).map Char.toLower ∈ seen
    · simpa [hk] using ih seen
    · have ihs := ih (((jsTrim inner).map Char.toLower) :: seen)
      simp only [if_neg hk, List.map_cons, List.nodup_cons, List.mem_map]
      refine ⟨⟨?_, ihs.1⟩, ?_⟩
      · intro hmem
        have := ihs.2 _ (by simpa using hmem)
        exact this (List.mem_cons_self _ _)
      · intro k hkmem
        rcases List.mem_cons.mp hkmem with h | h
        · subst h; exact hk
        · intro hks
          exact (ihs.2 k (by simpa using h)) (List.mem_cons_of_mem _ hks)

theorem dedupKeyedI_map_data (gen : Nat → List Char) :
    ∀ (ms : List (List Char × List Char)) (n : Nat) (seen : List (List Char)),
      ((dedupKeyedI gen n seen ms).map Prod.snd).map PlaceholderI.data =
        (dedupKeyed seen ms).map Prod.snd := by
  intro ms
  induction ms with
  | nil => intro n seen; simp [dedupKeyedI, dedupKeyed]
  | cons m ms ih =>
    intro n seen
    obtain ⟨orig, inner⟩ := m
    simp only [dedupKeyedI, dedupKeyed]
    by_cases hk : (jsTrim inner).map Char.toLower ∈ seen
    · simpa [hk] using ih n seen
    · simp only [if_neg hk, List.map_cons]
      exact congrArg (_ :: ·) (ih (n + 1) _)

theorem map_data_insertionSort (l : List PlaceholderI) :
    (List.insertionSort labelLeI l).map PlaceholderI.data =
      List.insertionSort labelLe (l.map PlaceholderI.data) :=
  List.map_insertionSort labelLeI labelLe PlaceholderI.data l
    (fun _ _ _ _ => Iff.rfl)

theorem typeErrors_nil_iff (dateOk : List Char → Bool) (p : Placeholder) :
    typeErrors dateOk p = [] ↔ dTypeErrors dateOk p = [] := by
  unfold typeErrors dTypeErrors
  cases p.type <;> split_ifs <;> simp

theorem bool_eq_of_iff {a b : Bool} (h : a = true ↔ b = true) : a = b := by
  cases a <;> cases b <;> simp_all

theorem keyedLexLe_total (key : Char → Nat) :
    ∀ a b : List Char, keyedLexLe key a b = true ∨ keyedLexLe key b a = true := by
  intro a
  induction a with
  | nil => intro b; left; rfl
  | cons c as ih =>
    intro b
    cases b with
    | nil => right; rfl
    | cons d bs =>
      rcases lt_trichotomy (key c) (key d) with h | h | h
      · left; simp [keyedLexLe, h]
      · rcases ih bs with h2 | h2
        · left; simp [keyedLexLe, h, lt_irrefl, h2]
        · right; simp [keyedLexLe, h, lt_irrefl, h2]
      · right; simp [keyedLexLe, h]

theorem keyedLexLe_trans (key : Char → Nat) :
    ∀ a b c : List Char,
      keyedLexLe key a b = true → keyedLexLe key b c = true →
        keyedLexLe key a c = true := by
  intro a
  induction a with
  | nil => intro b c _ _; rfl
  | cons x as ih =>
    intro b c hab hbc
    cases b with
    | nil => simp [keyedLexLe] at hab
    | cons y bs =>
      cases c with
      | nil => simp [keyedLexLe] at hbc
      | cons z cs =>
        simp only [keyedLexLe] at hab hbc ⊢
        rcases lt_trichotomy (key x) (key y) with hxy | hxy | hxy
        · rcases lt_trichotomy (key y) (key z) with hyz | hyz | hyz
          · rw [if_pos (lt_trans hxy hyz)]
          · rw [if_pos (hyz ▸ hxy)]
          · rw [if_neg (lt_asymm hyz), if_pos hyz] at hbc
            simp at hbc
        · rw [hxy] at hab ⊢
          rw [if_neg (lt_irrefl (key y)), if_neg (lt_irrefl (key y))] at hab
          rcases lt_trichotomy (key y) (key z) with hyz | hyz | hyz
          · rw [if_pos hyz]
          · rw [hyz] at hbc ⊢
            rw [if_neg (lt_irrefl (key z)), if_neg (lt_irrefl (key z))] at hbc ⊢
            exact ih bs cs hab hbc
          · rw [if_neg (lt_asymm hyz), if_pos hyz] at hbc
            simp at hbc
        · rw [if_neg (lt_asymm hxy), if_pos hxy] at hab
          simp at hab

/-! Claim theorems -/

/-- C1 counterexample: extraction on `{{x}} and {{x}} again` does not yield
exactly one Placeholder — the single-brace grammar additionally matches the
prefix `{{x}` of the first token with inner token `{x`, whose dedup key
differs from `x`, so the extracted list has two entries. -/
theorem C1_counterexample :
    (extractPlaceholders contentDup).length = 2 ∧
      ¬(extractPlaceholders contentDup).length = 1 := by
  decide

/-- C1 (amended): extraction of `{{x}} and {{x}} again` yields exactly one
Placeholder for the token `x` (the duplicate `{{x}}` is collapsed into it)
plus one artifact Placeholder with inner token `{x` produced by the
single-brace grammar from the characters `{{x}`; filling the content with the
`x` Placeholder's value set to `Y` yields `Y and Y again`; and in general the
dedup keys (trimmed, lowercased inner tokens) of all created Placeholders are
pairwise distinct, so a duplicate token never creates a second Placeholder. -/
theorem C1_amended :
    extractPlaceholders contentDup = [phX, phBraceX] ∧
      (extractPlaceholders contentDup).filter
          (fun p => p.originalText == tokX) = [phX] ∧
      fillPlaceholders contentDup
          [{ phX with value := ("Y").toList }, phBraceX] = ("Y and Y again").toList ∧
      ∀ content : List Char,
        ((dedupKeyed [] (allMatches content)).map Prod.fst).Nodup := by
  refine ⟨by decide, by decide, by decide, ?_⟩
  intro content
  exact (dedupKeyed_keys_fresh (allMatches content) []).1

/-- C2 counterexample: `fillPlaceholders` passes the value to the host
`String.replace` as a replacement pattern, so a value containing `$` escapes
is not substituted literally: filling `{{x}}` with value `$$` produces `$`,
not `$$` as the claim's "replaces ... with that Placeholder's value"
requires. -/
theorem C2_counterexample :
    fillPlaceholders tokX [phDollar] = ("$").toList ∧
      ¬fillPlaceholders tokX [phDollar] = specFillPlaceholders tokX [phDollar] := by
  decide

/-- C2 (amended): for every content and Placeholder list in which no value
contains a `$` character, `fillPlaceholders` substitutes every Placeholder
with a non-empty value at every literal occurrence of its regex-escaped
`originalText`, leaving valueless Placeholders untouched (it coincides with
the literal global substitution `specFillPlaceholders`); values containing
`$` undergo the host replacement-pattern escapes instead.  In particular
`Hello {{name}}, total {{amount}}` with `name=Alice`, `amount=10` fills to
`Hello Alice, total 10`, and re-filling that result with the same inputs
returns it unchanged. -/
theorem C2_amended :
    (∀ (content : List Char) (ps : List Placeholder),
        (∀ p ∈ ps, ('$' : Char) ∉ p.value) →
          fillPlaceholders content ps = specFillPlaceholders content ps) ∧
      fillPlaceholders contentHello [phName, phAmount] =
        ("Hello Alice, total 10").toList ∧
      fillPlaceholders (("Hello Alice, total 10").toList) [phName, phAmount] =
        ("Hello Alice, total 10").toList := by
  refine ⟨?_, by decide, by decide⟩
  intro content ps
  induction ps generalizing content with
  | nil => intro _; rfl
  | cons p ps ih =>
    intro h
    have hp : ('$' : Char) ∉ p.value := h p (List.mem_cons_self p ps)
    have hps : ∀ q ∈ ps, ('$' : Char) ∉ q.value :=
      fun q hq => h q (List.mem_cons_of_mem p hq)
    simp only [fillPlaceholders, specFillPlaceholders, List.foldl_cons]
    by_cases hv : p.value.isEmpty
    · simp only [hv, if_pos]
      exact ih content hps
    · simp only [hv, if_neg, Bool.false_eq_true, not_false_eq_true]
      have hfun :
          (fun m pre post => substTemplate [] m pre post p.value) =
            (fun _ _ _ => p.value : List Char → List Char → List Char → List Char) :=
        funext fun m => funext fun pre => funext fun post =>
          substTemplate_no_dollar [] m pre post p.value hp
      rw [show jsReplaceStr (fun m pre post => substTemplate [] m pre post p.value)
            p.originalText content =
          literalReplaceAll content p.originalText p.value from by
        unfold literalReplaceAll
        rw [hfun]]
      exact ih _ hps

/-- C2 witness: the general part of the amended claim applied to the concrete
`Hello {{name}}, total {{amount}}` example, whose values contain no `$`. -/
theorem C2_witness :
    fillPlaceholders contentHello [phName, phAmount] =
      specFillPlaceholders contentHello [phName, phAmount] :=
  C2_amended.1 contentHello [phName, phAmount] (by decide)

/-- C3: metadata inference.  Generally, for every token, the created
Placeholder's `type` equals the spec's inference rule applied to the
normalized token, `required` is false exactly when the normalized token
contains "optional" or "if applicable", and the label is the normalized token
with each space-delimited word capitalized.  Concretely, for all four
delimiter styles a `client_name` token yields exactly one Placeholder with
that `originalText`, labelled "Client Name", of type `text`, required; and
`effective_date`, `client_email`, `total_amount`, `middle_name_optional`
tokens yield types `date`, `email`, `number` and `required = false`
respectively. -/
theorem C3_metadata :
    (∀ text orig : List Char,
        (createPlaceholder text orig).type =
          specTypeOf ((cleanTextOf text).map Char.toLower)) ∧
      (∀ text orig : List Char,
        ((createPlaceholder text orig).required = false ↔
          (containsSub ((("optional").toList : List Char))
              ((cleanTextOf text).map Char.toLower) = true ∨
            containsSub ((("if applicable").toList : List Char))
              ((cleanTextOf text).map Char.toLower) = true))) ∧
      (∀ text orig : List Char,
        (createPlaceholder text orig).label = formatLabel (cleanTextOf text)) ∧
      (extractPlaceholders (("\x7b\x7bclient_name\x7d\x7d").toList)).filter
          (fun p => p.originalText == ("\x7b\x7bclient_name\x7d\x7d").toList) =
        [phClientName (("\x7b\x7bclient_name\x7d\x7d").toList)] ∧
      extractPlaceholders (("[CLIENT_NAME]").toList) =
        [phClientName (("[CLIENT_NAME]").toList)] ∧
      extractPlaceholders (("<<client_name>>").toList) =
        [phClientName (("<<client_name>>").toList)] ∧
      extractPlaceholders (("\x7bclient_name\x7d").toList) =
        [phClientName (("\x7bclient_name\x7d").toList)] ∧
      ((extractPlaceholders (("\x7b\x7beffective_date\x7d\x7d").toList)).filter
          (fun p => p.originalText == ("\x7b\x7beffective_date\x7d\x7d").toList)).map
          Placeholder.type = [PType.date] ∧
      ((extractPlaceholders (("\x7b\x7bclient_email\x7d\x7d").toList)).filter
          (fun p => p.originalText == ("\x7b\x7bclient_email\x7d\x7d").toList)).map
          Placeholder.type = [PType.email] ∧
      ((extractPlaceholders (("\x7b\x7btotal_amount\x7d\x7d").toList)).filter
          (fun p => p.originalText == ("\x7b\x7btotal_amount\x7d\x7d").toList)).map
          Placeholder.type = [PType.number] ∧
      ((extractPlaceholders (("\x7b\x7bmiddle_name_optional\x7d\x7d").toList)).filter
          (fun p => p.originalText == ("\x7b\x7bmiddle_name_optional\x7d\x7d").toList)).map
          Placeholder.required = [false] := by
  refine ⟨?_, ?_, ?_, by decide, by decide, by decide, by decide,
    by decide, by decide, by decide, by decide⟩
  · intro text orig
    unfold createPlaceholder specTypeOf
    dsimp only
    split_ifs <;> rfl
  · intro text orig
    unfold createPlaceholder
    dsimp only
    cases h1 : containsSub ((("optional").toList : List Char))
        ((cleanTextOf text).map Char.toLower) <;>
      cases h2 : containsSub ((("if applicable").toList : List Char))
          ((cleanTextOf text).map Char.toLower) <;>
      simp [h1, h2]
  · intro text orig
    rfl

/-- C4 counterexample: a required email Placeholder whose value is the
whitespace-only string of one space has a non-empty value failing the email
check, so the claim requires a type error for it; the code's early `return`
after the completeness error skips the type check, producing the completeness
error only. -/
theorem C4_counterexample :
    (validatePlaceholders dOkF [phWsEmail]).errors = [("E is required").toList] ∧
      ¬phWsEmail.value = [] ∧
      isValidEmail phWsEmail.value = false ∧
      ¬(("E must be a valid email address").toList ∈
        (validatePlaceholders dOkF [phWsEmail]).errors) := by
  decide

/-- C4 (amended): `validatePlaceholders` accumulates, per Placeholder in
order: the single completeness error naming its label if it is required with
an empty or whitespace-only value (the type check is then skipped), otherwise
its type error if its value is non-empty and fails the type check (email by
the `local@domain.tld` regex, number by the host numeric grammar, date by the
host date parser `dateOk`); `isValid` is true exactly when no errors were
produced.  An email-typed Placeholder with value `not-an-email` produces
exactly one type error and value `a@b.co` produces none. -/
theorem C4_amended :
    (∀ (dateOk : List Char → Bool) (ps : List Placeholder),
        (validatePlaceholders dateOk ps).errors = concatMap (vpUnit dateOk) ps ∧
          ((validatePlaceholders dateOk ps).isValid = true ↔
            (validatePlaceholders dateOk ps).errors = [])) ∧
      (validatePlaceholders dOkF [phBadEmail]).errors =
        [("E must be a valid email address").toList] ∧
      (validatePlaceholders dOkF [phGoodEmail]).errors = [] := by
  refine ⟨fun dateOk ps => ⟨?_, ?_⟩, by decide, by decide⟩
  · exact validatePlaceholders_errors dateOk ps
  · exact validationResult_isValid_iff dateOk ps

/-- C5: extraction is deterministic up to `id` and derives its output solely
from its argument: for every id-generator sequence, the id-carrying
extraction erases to the pure `extractPlaceholders` of the content, so any
two runs agree on count and on every field except `id`. -/
theorem C5_stateless :
    (∀ (gen : Nat → List Char) (content : List Char),
        (extractPlaceholdersI gen content).map PlaceholderI.data =
          extractPlaceholders content) ∧
      (∀ (gen1 gen2 : Nat → List Char) (content : List Char),
        (extractPlaceholdersI gen1 content).map PlaceholderI.data =
          (extractPlaceholdersI gen2 content).map PlaceholderI.data) ∧
      (∀ (gen1 gen2 : Nat → List Char) (content : List Char),
        (extractPlaceholdersI gen1 content).length =
          (extractPlaceholdersI gen2 content).length) := by
  have key : ∀ (gen : Nat → List Char) (content : List Char),
      (extractPlaceholdersI gen content).map PlaceholderI.data =
        extractPlaceholders content := by
    intro gen content
    unfold extractPlaceholdersI extractPlaceholders detectPlaceholders
    rw [map_data_insertionSort, dedupKeyedI_map_data]
  refine ⟨key, fun gen1 gen2 content => ?_, fun gen1 gen2 content => ?_⟩
  · rw [key gen1 content, key gen2 content]
  · have h1 := congrArg List.length (key gen1 content)
    have h2 := congrArg List.length (key gen2 content)
    rw [List.length_map] at h1 h2
    rw [h1, h2]

/-- C6 counterexample: the output ordering is decided by the host collation
behind `localeCompare`, not by code-point lexicographic order.  Under a
total, transitive comparator with the punctuation-before-letters property of
default `localeCompare` collations, extraction of `{{x}} and {{x}} again`
returns its two placeholders as [label `{x`, label `X`], which is not
lexicographically ascending (`{x` exceeds `X` in code-point order). -/
theorem C6_counterexample :
    extractPlaceholdersWith icuLikeLe contentDup = [phBraceX, phX] ∧
      icuLikeLe phBraceX.label phX.label = true ∧
      lexLe phBraceX.label phX.label = false ∧
      ¬List.Sorted labelLe (extractPlaceholdersWith icuLikeLe contentDup) := by
  refine ⟨by decide, by decide, by decide, ?_⟩
  intro hs
  rw [show extractPlaceholdersWith icuLikeLe contentDup = [phBraceX, phX] from by
    decide] at hs
  have h := List.rel_of_sorted_cons hs phX (List.mem_cons_self _ _)
  exact absurd h (by decide)

/-- C6 (amended): for every total, transitive comparator modelling the host
`localeCompare` collation, the Placeholder list returned by extraction is
sorted by label, ascending, with respect to that comparator; it is sorted in
code-point lexicographic order exactly under the lexicographic instantiation
of the collation, which is what the fixed model `extractPlaceholders`
computes. -/
theorem C6_amended :
    (∀ le : List Char → List Char → Bool,
        (∀ a b, le a b = true ∨ le b a = true) →
        (∀ a b c, le a b = true → le b c = true → le a c = true) →
        ∀ content : List Char,
          List.Sorted (fun p q => le p.label q.label = true)
            (extractPlaceholdersWith le content)) ∧
      (∀ content : List Char,
        extractPlaceholdersWith lexLe content = extractPlaceholders content) := by
  constructor
  · intro le htot htrans content
    letI : IsTotal Placeholder (fun p q => le p.label q.label = true) :=
      ⟨fun p q => htot p.label q.label⟩
    letI : IsTrans Placeholder (fun p q => le p.label q.label = true) :=
      ⟨fun p q w h1 h2 => htrans p.label q.label w.label h1 h2⟩
    exact List.sorted_insertionSort _ _
  · intro content
    rfl

/-- C6 witness: the amended sortedness applied to the concrete
punctuation-before-letters comparator on the duplicate-token content, where
the output order differs from lexicographic. -/
theorem C6_witness :
    List.Sorted (fun p q => icuLikeLe p.label q.label = true)
      (extractPlaceholdersWith icuLikeLe contentDup) :=
  C6_amended.1 icuLikeLe (keyedLexLe_total icuKey) (keyedLexLe_trans icuKey)
    contentDup

/-- C7: line classification and sizing of the renderer.  `SECTION ONE` is a
heading of level 1, `1. Parties` a heading of level 2, and a normal sentence
ending in a period a body paragraph; rendering the three lines produces bold
runs of 32 and 28 half-points (16pt and 14pt) for the headings and a plain
run of 24 half-points (12pt) for the body; heading sizes by level are
16pt/14pt/13pt in half-points. -/
theorem C7_render_heuristic :
    parseTextToParagraphs renderInput =
      [{ text := ("SECTION ONE").toList, bold := true, size := 32,
         heading := some HLevel.h1 },
       { text := ("1. Parties").toList, bold := true, size := 28,
         heading := some HLevel.h2 },
       { text := ("This is a normal sentence.").toList, bold := false, size := 24,
         heading := none }] ∧
      isHeading (("SECTION ONE").toList) = true ∧
      getHeadingLevel (("SECTION ONE").toList) = HLevel.h1 ∧
      isHeading (("1. Parties").toList) = true ∧
      getHeadingLevel (("1. Parties").toList) = HLevel.h2 ∧
      isHeading (("This is a normal sentence.").toList) = false ∧
      getHeadingSize HLevel.h1 = 2 * 16 ∧
      getHeadingSize HLevel.h2 = 2 * 14 ∧
      getHeadingSize HLevel.h3 = 2 * 13 := by
  decide

/-- C8: upload validation accepts exactly the files with an allowed MIME
type, size at most 10 MB and filename at most 255 characters, and each
violated condition contributes exactly one error. -/
theorem C8_upload_validation :
    ∀ f : UploadFile,
      ((validateDocumentUpload f).isValid = true ↔
        (f.type ∈ allowedMimeTypes ∧ f.size ≤ maxUploadSize ∧ f.name.length ≤ 255)) ∧
      (validateDocumentUpload f).errors.length =
        ((if f.size > maxUploadSize then 1 else 0) +
          (if f.type ∈ allowedMimeTypes then 0 else 1) +
          (if f.name.length > 255 then 1 else 0)) := by
  intro f
  unfold validateDocumentUpload
  dsimp only
  constructor
  · split_ifs with h1 h2 h3 <;> simp_all
  · split_ifs <;> simp

theorem validateForDownload_isValid_iff (dateOk : List Char → Bool)
    (ps : List Placeholder) :
    (validateForDownload dateOk ps).isValid = true ↔
      (((ps.filter (fun p => p.required)).filter
          (fun p => p.value.isEmpty || (jsTrim p.value).isEmpty)) = [] ∧
        ∀ p ∈ ps,
          (if !p.value.isEmpty && !(jsTrim p.value).isEmpty then dTypeErrors dateOk p
            else []) = []) := by
  unfold validateForDownload
  dsimp only
  rw [beq_iff_eq, List.length_eq_zero, List.append_eq_nil, concatMap_eq_nil_iff]
  constructor
  · rintro ⟨ha, hb⟩
    refine ⟨?_, hb⟩
    by_cases hu : ((ps.filter (fun p => p.required)).filter
        (fun p => p.value.isEmpty || (jsTrim p.value).isEmpty)) = []
    · exact hu
    · exfalso
      have hlen : 0 < ((ps.filter (fun p => p.required)).filter
          (fun p => p.value.isEmpty || (jsTrim p.value).isEmpty)).length :=
        List.length_pos.mpr hu
      rw [if_pos hlen] at ha
      simp at ha
  · rintro ⟨ha, hb⟩
    refine ⟨?_, hb⟩
    rw [ha]
    simp

theorem vpUnit_nil_iff (dateOk : List Char → Bool) (p : Placeholder)
    (hp : p.value ≠ [] → jsTrim p.value ≠ []) :
    (vpUnit dateOk p = []) ↔
      (¬(p.required = true ∧ (p.value.isEmpty || (jsTrim p.value).isEmpty) = true) ∧
        (if !p.value.isEmpty && !(jsTrim p.value).isEmpty then dTypeErrors dateOk p
          else []) = []) := by
  unfold vpUnit
  by_cases hv : p.value = []
  · have htv : jsTrim p.value = [] := by rw [hv]; rfl
    cases hr : p.required <;>
      simp [hv, htv, hr, show jsTrim ([] : List Char) = [] from rfl]
  · have ht : jsTrim p.value ≠ [] := hp hv
    have hv' : p.value.isEmpty = false := by
      cases hq : p.value
      · exact absurd hq hv
      · rfl
    have ht' : (jsTrim p.value).isEmpty = false := by
      cases hq : jsTrim p.value
      · exact absurd hq ht
      · rfl
    simp [hv', ht', typeErrors_nil_iff dateOk p]

theorem doubleFilter_nil_iff (ps : List Placeholder) :
    ((ps.filter (fun p => p.required)).filter
        (fun p => p.value.isEmpty || (jsTrim p.value).isEmpty)) = [] ↔
      ∀ p ∈ ps,
        ¬(p.required = true ∧ (p.value.isEmpty || (jsTrim p.value).isEmpty) = true) := by
  rw [List.filter_eq_nil_iff]
  constructor
  · intro h p hp hcon
    exact h p (List.mem_filter.mpr ⟨hp, hcon.1⟩) hcon.2
  · intro h p hp hblank
    have hm := List.mem_filter.mp hp
    exact h p hm.1 ⟨hm.2, hblank⟩

/-- C9 counterexample: an optional email Placeholder with whitespace-only
value " " fails the preview validation (its non-empty value is type-checked
and is not a valid email) but passes the download validation (which skips the
type check when the value trims to empty), so the two verdicts differ. -/
theorem C9_counterexample :
    (validatePlaceholders dOkF [phWsEmailOpt]).isValid = false ∧
      (validateForDownload dOkF [phWsEmailOpt]).isValid = true := by
  decide

/-- C9 (amended): the preview validation (`validatePlaceholders`) and the
download validation (`validateForDownload`) agree on the `isValid` verdict
for every Placeholder list in which no value is a non-empty whitespace-only
string; they can disagree only on such values, which the former type-checks
and the latter skips. -/
theorem C9_amended :
    ∀ (dateOk : List Char → Bool) (ps : List Placeholder),
      (∀ p ∈ ps, p.value ≠ [] → jsTrim p.value ≠ []) →
      (validatePlaceholders dateOk ps).isValid =
        (validateForDownload dateOk ps).isValid := by
  intro dateOk ps h
  apply bool_eq_of_iff
  rw [validationResult_isValid_iff, validatePlaceholders_errors, concatMap_eq_nil_iff,
    validateForDownload_isValid_iff, doubleFilter_nil_iff]
  constructor
  · intro hall
    constructor
    · intro p hp
      exact ((vpUnit_nil_iff dateOk p (h p hp)).mp (hall p hp)).1
    · intro p hp
      exact ((vpUnit_nil_iff dateOk p (h p hp)).mp (hall p hp)).2
  · rintro ⟨h1, h2⟩ p hp
    exact (vpUnit_nil_iff dateOk p (h p hp)).mpr ⟨h1 p hp, h2 p hp⟩

/-- C9 witness: the amended equivalence applied to a concrete Placeholder
list with a well-formed email value. -/
theorem C9_witness :
    (validatePlaceholders dOkF [phGoodEmail]).isValid =
      (validateForDownload dOkF [phGoodEmail]).isValid :=
  C9_amended dOkF [phGoodEmail] (by decide)

/-- C10: the filled/unfilled boundary.  For every Placeholder whose value is
a non-empty whitespace-only string, `fillPlaceholders` treats it as filled
(the global substitution of its `originalText` by the value runs), the
required-completeness check treats it as unfilled (a required such
Placeholder yields exactly the completeness error, its trimmed value being
empty), and the highlight view treats it as unfilled (the wrapping
substitution runs).  Concretely, for value " " on token `{{x}}`: filling
`{{x}}` yields " ", validation yields the single error `E is required`, and
highlighting wraps the token in the unfilled-marker span. -/
theorem C10_whitespace_boundary :
    (∀ (dateOk : List Char → Bool) (content : List Char) (p : Placeholder),
        p.value ≠ [] → jsTrim p.value = [] →
          (fillPlaceholders content [p] =
              jsReplaceStr (fun m pre post => substTemplate [] m pre post p.value)
                p.originalText content) ∧
            (p.required = true →
              (validatePlaceholders dateOk [p]).errors =
                [p.label ++ (" is required").toList]) ∧
            (highlightUnfilledPlaceholders content [p] =
              jsReplaceStr
                (fun m pre post => substTemplate [m] m pre post (wrapTemplate p.label))
                p.originalText content)) ∧
      fillPlaceholders tokX [phWsEmail] = (" ").toList ∧
      (validatePlaceholders dOkF [phWsEmail]).errors = [("E is required").toList] ∧
      highlightUnfilledPlaceholders tokX [phWsEmail] =
        ("<span class=\"unfilled-placeholder\" title=\"Unfilled: E\">\x7b\x7bx\x7d\x7d</span>").toList := by
  refine ⟨?_, by decide, by decide, by decide⟩
  intro dateOk content p hv ht
  have hv' : p.value.isEmpty = false := by
    cases hq : p.value
    · exact absurd hq hv
    · rfl
  have ht' : (jsTrim p.value).isEmpty = true := by rw [ht]; rfl
  refine ⟨?_, ?_, ?_⟩
  · simp only [fillPlaceholders, List.foldl_cons, List.foldl_nil]
    rw [if_neg (by simp [hv'])]
  · intro hreq
    simp [validatePlaceholders, vpStep, hv', ht', hreq]
  · simp only [highlightUnfilledPlaceholders, List.foldl_cons, List.foldl_nil]
    rw [if_pos (by simp [ht'])]

/-- C10 witness: the boundary facts instantiated at the whitespace-valued
required email Placeholder on content `{{x}}`. -/
theorem C10_witness :
    fillPlaceholders tokX [phWsEmail] =
        jsReplaceStr (fun m pre post => substTemplate [] m pre post phWsEmail.value)
          phWsEmail.originalText tokX ∧
      (validatePlaceholders dOkF [phWsEmail]).errors =
        [phWsEmail.label ++ (" is required").toList] ∧
      highlightUnfilledPlaceholders tokX [phWsEmail] =
        jsReplaceStr
          (fun m pre post => substTemplate [m] m pre post (wrapTemplate phWsEmail.label))
          phWsEmail.originalText tokX := by
  have h := C10_whitespace_boundary.1 dOkF tokX phWsEmail (by decide) (by decide)
  exact ⟨h.1, h.2.1 (by decide), h.2.2⟩
